import Mathlib

/-!
Verification of the plot data-extraction pipeline of this repository
(`dvc/repo/plot/data.py`, `dvc/repo/plot.py`, `dvc/plot.py`).

Python values appearing in records are modelled by the inductive type `Val`.
Python dictionaries (`OrderedDict` / `csv.DictReader` rows) are modelled as
ordered association lists.  Dictionary keys in this code are strings, except
for `csv.DictReader`'s rest key, which is the Python value `None`; keys are
therefore modelled as `Option String`, with `some s` for the string key `s`
and `none` for the `None` rest key.
-/

/-- A scalar or cell value of a record.  `nil` models Python `None`
(`csv.DictReader`'s `restval`), `ls` models the list of overflow cells stored
under the rest key. -/
inductive Val where
  | s (str : String)
  | i (n : Int)
  | ls (cells : List String)
  | nil
deriving DecidableEq, Repr

/-- A Python dict key: `some s` for a string key, `none` for `None`. -/
abbrev Key := Option String

/-- A record (one data point): an ordered mapping of keys to values,
modelling a Python `dict` / `OrderedDict`. -/
abbrev Record := List (Key × Val)

/-- The ordered key list of a record (`list(d.keys())`). -/
def recKeys (dp : Record) : List Key := dp.map Prod.fst

/-- Python `d[k]`: value at the first entry with key `k`, `none` when the
lookup would raise `KeyError`. -/
def lookupKey (k : Key) (dp : Record) : Option Val :=
  (dp.find? (fun kv => kv.1 = k)).map Prod.snd

/-- Python `d[k] = v` on a dict: overwrite the value in place when the key
exists, otherwise append the new entry at the end. -/
def setKey (dp : Record) (k : Key) (v : Val) : Record :=
  if dp.any (fun kv => kv.1 = k) then
    dp.map (fun kv => if kv.1 = k then (k, v) else kv)
  else dp ++ [(k, v)]

/-! ## CSV parsing (`csv.reader` / `csv.DictReader` as used by
`CSVPlotData.raw`).  Quoting is not modelled: no content in scope of the
specification contains quote characters. -/

/-- Split a character list on a separator character (the list analogue of
Python `str.split(sep)`): the empty list yields one empty fragment. -/
def splitOnChar (c : Char) : List Char → List (List Char)
  | [] => [[]]
  | x :: xs =>
    if x = c then [] :: splitOnChar c xs
    else
      match splitOnChar c xs with
      | g :: gs => (x :: g) :: gs
      | [] => [[x]]

/-- Split file content into csv input lines: newline-separated, a trailing
carriage return stripped from each line, and the empty fragment after a final
newline dropped (a file ending in a newline has no extra row). -/
def csvSplitLines (content : String) : List (List Char) :=
  let ls := (splitOnChar '\n' content.toList).map (fun cs =>
    if cs.getLast? = some '\r' then cs.dropLast else cs)
  match ls.reverse with
  | [] :: rest => rest.reverse
  | _ => ls

/-- `skipinitialspace=True`: whitespace immediately following the delimiter
is ignored, i.e. leading spaces of every cell but the first are dropped. -/
def dropInitialSpace (cells : List (List Char)) : List (List Char) :=
  match cells with
  | [] => []
  | c :: rest => c :: rest.map (fun s => s.dropWhile (fun ch => ch = ' '))

/-- One row of `csv.reader`: an empty line yields the empty row `[]`,
otherwise the line splits on the delimiter. -/
def csvParseLine (delim : Char) (skipInitSpace : Bool) (line : List Char) :
    List String :=
  if line = [] then []
  else
    let cells := splitOnChar delim line
    (if skipInitSpace then dropInitialSpace cells else cells).map String.mk

/-- All rows of `csv.reader` over the given content. -/
def csvReaderRows (delim : Char) (skipInitSpace : Bool) (content : String) :
    List (List String) :=
  (csvSplitLines content).map (csvParseLine delim skipInitSpace)

/-- One `csv.DictReader` row: cells zipped with the fieldnames; overflow
cells are collected under the rest key `none`; missing cells are filled with
`restval` (Python `None`). -/
def dictRow (fns : List String) (row : List String) : Record :=
  ((fns.zip row).map (fun fc => (some fc.1, Val.s fc.2)))
    ++ (if fns.length < row.length
        then [((none : Key), Val.ls (row.drop fns.length))] else [])
    ++ ((fns.drop row.length).map (fun f => (some f, Val.nil)))

/-- `csv.DictReader` with explicit `fieldnames`: every non-blank row becomes
a record (blank rows `[]` are skipped, the first row is data). -/
def dictReaderWithFieldnames (delim : Char) (skipInitSpace : Bool)
    (fns : List String) (content : String) : List Record :=
  (((csvReaderRows delim skipInitSpace content).filter
      (fun r => r ≠ [])).map (dictRow fns))

/-- `csv.DictReader` without explicit `fieldnames`: the first row (blank or
not) becomes the header; the remaining non-blank rows become records.
Returns `(fieldnames, records)`; fieldnames are `none` when the content has
no row at all. -/
def dictReaderHeader (delim : Char) (skipInitSpace : Bool)
    (content : String) : Option (List String) × List Record :=
  match csvReaderRows delim skipInitSpace content with
  | [] => (none, [])
  | h :: rest => (some h, (rest.filter (fun r => r ≠ [])).map (dictRow h))

/-- `CSVPlotData.raw`: the one-column check on the first row always uses the
comma delimiter (`csv.reader(io.StringIO(self.content))` with default
dialect), while the `DictReader` uses the declared delimiter.  Returns
`(records, fieldnames)`; the result is `none` when the content has no first
row at all (Python raises `TypeError` on `len(None)` there). -/
def csvRaw (delim : Char) (content : String) :
    Option (List Record × Option (List String)) :=
  match (csvReaderRows ',' false content).head? with
  | none => none
  | some firstRow =>
    if firstRow.length = 1 then
      some (dictReaderWithFieldnames delim false ["value"] content,
            some ["value"])
    else
      let (fns, recs) := dictReaderHeader delim true content
      some (recs, fns)

/-! ## Field projection (`_filter_fields` in `dvc/repo/plot/data.py`). -/

/-- The typed content of the `DvcException` raised by `_filter_fields`: its
message interpolates the requested field set and the offending record's key
set. -/
inductive FilterErr where
  | fieldNotFound (fields : List String) (keys : List Key)
deriving DecidableEq, Repr

/-- `if fieldnames and key in fieldnames: fieldnames.remove(key)` — the
first occurrence of a string key is removed from a truthy fieldnames list;
the rest key `none` is never an element of a list of strings. -/
def removeKeyFromFieldnames (fns : Option (List String)) (k : Key) :
    Option (List String) :=
  match fns, k with
  | some l, some s => if l ≠ [] ∧ s ∈ l then some (l.erase s) else some l
  | _, _ => fns

/-- The per-record keys deleted from the copy: `keys - fields` as a
duplicate-free list (Python iterates a set; erasures of distinct keys
commute, so list order is immaterial). -/
def keysToDelete (fields : List String) (keys : List Key) : List Key :=
  (keys.filter (fun k => ¬ k ∈ fields.map some)).dedup

/-- The projected copy of a record: entries whose key was requested, in
their original order (`del new_dp[key]` for every key in `keys - fields`). -/
def projectRecord (fields : List String) (dp : Record) : Record :=
  dp.filter (fun kv => kv.1 ∈ fields.map some)

/-- The loop of `_filter_fields` over the data points, threading the
(mutated-in-place) fieldnames list. -/
def filterLoop (fields : List String) :
    List Record → Option (List String) →
    Except FilterErr (List Record × Option (List String))
  | [], fns => .ok ([], fns)
  | dp :: rest, fns =>
    let keys := recKeys dp
    if ∀ f ∈ fields, (some f : Key) ∈ keys then
      let fns' := (keysToDelete fields keys).foldl removeKeyFromFieldnames fns
      match filterLoop fields rest fns' with
      | .error e => .error e
      | .ok (ds, fns'') => .ok (projectRecord fields dp :: ds, fns'')
    else .error (.fieldNotFound fields keys)

/-- `_filter_fields(data_points, fieldnames, fields)`: identity when the
field set is empty (falsy), otherwise the checked projection loop. -/
def filterFields (dps : List Record) (fns : Option (List String))
    (fields : List String) :
    Except FilterErr (List Record × Option (List String)) :=
  if fields = [] then .ok (dps, fns) else filterLoop fields dps fns

/-! ## Default-plot transform (`_transform_to_default_data`). -/

/-- The key the y-value is read from: the last element of a truthy
fieldnames list, else the last key of the first record (Python `last` of an
empty key list yields `None`, which is then itself used as the lookup key);
`none` when there is no first record (`first(data_points).keys()` raises). -/
def transformY (dps : List Record) (fns : Option (List String)) :
    Option Key :=
  match fns with
  | some (f :: fs) => some (some ((f :: fs).getLastD f))
  | _ => dps.head?.map (fun dp => (recKeys dp).getLastD none)

/-- The enumeration loop of `_transform_to_default_data`: one
`{"x": index, "y": data_point[y]}` record per data point; `none` when some
lookup raises `KeyError`. -/
def transformLoop (y : Key) : List Record → Nat → Option (List Record)
  | [], _ => some []
  | dp :: rest, idx =>
    match lookupKey y dp with
    | none => none
    | some v =>
      (transformLoop y rest (idx + 1)).map
        (fun ds => [(some "x", Val.i idx), (some "y", v)] :: ds)

/-- `_transform_to_default_data(data_points, fieldnames, default_plot)`:
identity unless `default_plot`; otherwise the (index, last-column value)
series with fieldnames `["x", "y"]`.  `none` models the Python crashes
(no first record / `KeyError`). -/
def transformToDefaultData (dps : List Record) (fns : Option (List String))
    (defaultPlot : Bool) :
    Option (List Record × Option (List String)) :=
  if defaultPlot = false then some (dps, fns)
  else
    match transformY dps fns with
    | none => none
    | some y =>
      (transformLoop y dps 0).map (fun ds => (ds, some ["x", "y"]))

/-! ## Format dispatch (`plot_data` in `dvc/repo/plot/data.py`). -/

/-- Index of the last occurrence of a character in a character list,
`none` when absent. -/
def lastIdxOf (c : Char) (cs : List Char) : Option Nat :=
  match cs.reverse.indexOf? c with
  | none => none
  | some ri => some (cs.length - 1 - ri)

/-- The extension component of `os.path.splitext`: the suffix from the last
dot, provided the dot lies after the last path separator and some character
of the basename strictly before it is not itself a dot (so dotfiles like
`.json` have no extension). -/
def splitextExt (p : String) : String :=
  let cs := p.toList
  match lastIdxOf '.' cs with
  | none => ""
  | some d =>
    let start := match lastIdxOf '/' cs with
      | none => 0
      | some s => s + 1
    if start ≤ d ∧ ((cs.drop start).take (d - start)).any (fun ch => ch ≠ '.')
    then String.mk (cs.drop d)
    else ""

/-- Python `str.lower()` applied characterwise (the filenames in scope are
ASCII, where the two agree). -/
def lowerString (s : String) : String :=
  String.mk (s.toList.map Char.toLower)

/-- The parser selected by `plot_data`. -/
inductive ParserSel where
  | jsonParser
  | csvParser (delimiter : Char)
  | yamlParser
deriving DecidableEq, Repr

/-- `plot_data(filename, ...)`: dispatch on the lowercased extension;
`PlotMetricTypeError(filename)` (modelled as the error carrying the
filename) for any other extension. -/
def plotDataSel (filename : String) : Except String ParserSel :=
  let ext := splitextExt (lowerString filename)
  if ext = ".json" then .ok .jsonParser
  else if ext = ".csv" then .ok (.csvParser ',')
  else if ext = ".tsv" then .ok (.csvParser '\t')
  else if ext = ".yaml" then .ok .yamlParser
  else .error filename

/-! ## Multi-revision loaders.

The per-revision load goes through the external content-resolution
collaborator (`repo.tree.open` / `api.open` / `repo.scm.get_tree`); it is
modelled as an oracle from the revision label to an outcome: content found
and processed (`ok`), file missing at that revision
(`FileNotFoundError`/`PathMissingError`, i.e. `NoMetricOnRevisionError`,
`notFound`), or any other exception (`otherError`). -/

/-- Outcome of loading one revision. -/
inductive Outcome (α : Type) (ε : Type) where
  | ok (a : α)
  | notFound
  | otherError (e : ε)

/-- The payload of a successful outcome, if any. -/
def Outcome.val? {α ε : Type} : Outcome α ε → Option α
  | .ok a => some a
  | _ => none

/-- Whether the outcome is the missing-file case. -/
def Outcome.isNotFound {α ε : Type} : Outcome α ε → Bool
  | .notFound => true
  | _ => false

/-- Errors escaping a multi-revision load. -/
inductive LoadErr (ε : Type) where
  | noMetricInHistory (path : String) (revisions : List String)
  | other (e : ε)

/-- The revision loop of `_load_from_revisions` in
`dvc/repo/plot/data.py`: successful payloads are appended in revision
order, missing revisions are collected (`exceptions`), and any other
exception propagates immediately.  Returns (data, missing revisions). -/
def loadLoop {α ε : Type} (outcome : String → Outcome α ε) :
    List String → Except ε (List α × List String)
  | [] => .ok ([], [])
  | r :: rest =>
    match outcome r with
    | .ok a =>
      match loadLoop outcome rest with
      | .error e => .error e
      | .ok (d, m) => .ok (a :: d, m)
    | .notFound =>
      match loadLoop outcome rest with
      | .error e => .error e
      | .ok (d, m) => .ok (d, r :: m)
    | .otherError e => .error e

/-- `_load_from_revisions(repo, datafile, revisions)` in
`dvc/repo/plot/data.py`: run the loop; raise `NoMetricInHistoryError`
when no data was collected and at least one revision was missing; otherwise
return the data together with the missing revisions, each of which is
reported as one warning. -/
def loadFromRevisionsData {α ε : Type} (outcome : String → Outcome α ε)
    (datafile : String) (revisions : List String) :
    Except (LoadErr ε) (List α × List String) :=
  match loadLoop outcome revisions with
  | .error e => .error (.other e)
  | .ok (data, missing) =>
    match data, missing with
    | [], _ :: _ => .error (.noMetricInHistory datafile revisions)
    | data, missing => .ok (data, missing)

/-- The revision-set defaulting at the top of `_load_from_revisions` in
`dvc/repo/plot.py`: with at most one caller-supplied revision, `"workspace"`
is appended to the caller's list in place, preceded by `"HEAD"` when the
list is empty and the working tree is dirty; two or more revisions are used
as given. -/
def defaultRevisions (revisions : List String) (isDirty : Bool) :
    List String :=
  if revisions.length ≤ 1 then
    (if revisions.length = 0 ∧ isDirty then revisions ++ ["HEAD"]
     else revisions) ++ ["workspace"]
  else revisions

/-- The revision loop of `_load_from_revisions` in `dvc/repo/plot.py`:
identical control flow, except each successful outcome is a record list
that is extended onto the merged result. -/
def loadLoopExtend {α ε : Type} (outcome : String → Outcome (List α) ε) :
    List String → Except ε (List α × List String)
  | [] => .ok ([], [])
  | r :: rest =>
    match outcome r with
    | .ok a =>
      match loadLoopExtend outcome rest with
      | .error e => .error e
      | .ok (d, m) => .ok (a ++ d, m)
    | .notFound =>
      match loadLoopExtend outcome rest with
      | .error e => .error e
      | .ok (d, m) => .ok (d, r :: m)
    | .otherError e => .error e

/-- `_load_from_revisions(repo, datafile, revisions, default_plot)` in
`dvc/repo/plot.py`: the caller's revision list is first extended in place
by `defaultRevisions` (the mutation is modelled by returning the final
state of the list as the second component); `NoMetricInHistoryError`
reports that final list. -/
def loadFromRevisionsPlot {α ε : Type} (outcome : String → Outcome (List α) ε)
    (datafile : String) (revisions : List String) (isDirty : Bool) :
    Except (LoadErr ε) (List α × List String) × List String :=
  let revs := defaultRevisions revisions isDirty
  (match loadLoopExtend outcome revs with
   | .error e => .error (.other e)
   | .ok (data, missing) =>
     match data, missing with
     | [], _ :: _ => .error (.noMetricInHistory datafile revs)
     | data, missing => .ok (data, missing),
   revs)

/-! ## Orchestrator (`plot`, `_parse_template` in `dvc/repo/plot.py`). -/

/-- A template document, abstracted to its embedded data-source placeholder
markers in encounter order (the rest of the document does not influence the
orchestration logic under scrutiny). -/
structure Template where
  placeholders : List String
deriving DecidableEq

/-- Modelled from the spec: `Template.parse_data_placeholders` is imported
from `dvc/plot.py` but absent from the source tree; per §4.5 it scans the
template's placeholder markers and returns the referenced data-source
identifiers in encounter order with duplicates removed. -/
def parseDataPlaceholders (t : Template) : List String :=
  t.placeholders.dedup

/-- Errors escaping `plot`. -/
inductive PlotErr (ε : Type) where
  | noDataNorTemplate
  | tooManyDataSources (datafile : String) (templateDatafiles : List String)
  | load (e : LoadErr ε)

/-- `_parse_template(template_path, datafile)`: with an explicit datafile,
fail with `TooManyDataSourcesError` when the template carries more than one
distinct placeholder, otherwise the single datafile replaces the template's
own set; without a datafile the template's placeholders are used. -/
def parseTemplate {ε : Type} (t : Template) (datafile : Option String) :
    Except (PlotErr ε) (List String) :=
  let tds := parseDataPlaceholders t
  match datafile with
  | some d =>
    if tds.length > 1 then .error (.tooManyDataSources d tds)
    else .ok [d]
  | none => .ok tds

/-- The revisions actually attempted by the revision loop before it returns
or aborts: every revision up to and including the first one whose load
raises a non-not-found exception. -/
def attemptedRevs {α ε : Type} (outcome : String → Outcome (List α) ε) :
    List String → List String
  | [] => []
  | r :: rest =>
    match outcome r with
    | .otherError _ => [r]
    | _ => r :: attemptedRevs outcome rest

/-- The dict comprehension of `plot`: load every required datafile in turn
over its (defaulted) revision set, recording each (datafile, revision) load
attempt in a trace; a raised error aborts the comprehension. -/
def plotLoadAll {α ε : Type} (outcome : String → String → Outcome (List α) ε)
    (revisions : List String) (isDirty : Bool) :
    List String →
    Except (PlotErr ε) (List (String × List α)) × List (String × String)
  | [] => (.ok [], [])
  | d :: rest =>
    let res := loadFromRevisionsPlot (outcome d) d revisions isDirty
    let tr := (attemptedRevs (outcome d) res.2).map (fun r => (d, r))
    match res.1 with
    | .error e => (.error (.load e), tr)
    | .ok (data, _) =>
      match plotLoadAll outcome revisions isDirty rest with
      | (.error e, tr') => (.error e, tr ++ tr')
      | (.ok ds, tr') => (.ok ((d, data) :: ds), tr ++ tr')

/-- `plot(repo, datafile, template, revisions, ...)` up to the point where
the merged datasets exist (the final `Template.fill` call is external to the
source tree): fail when neither datafile nor template was supplied, resolve
the template (an absent template argument resolves to the default template),
derive the required data sources via `_parse_template`, and load each over
the revision set.  The second component is the trace of per-revision load
attempts. -/
def plotRun {α ε : Type} (defaultTemplate : Template)
    (templateArg : Option Template) (datafile : Option String)
    (revisions : List String) (isDirty : Bool)
    (outcome : String → String → Outcome (List α) ε) :
    Except (PlotErr ε) (List (String × List α)) × List (String × String) :=
  if datafile = none ∧ templateArg = none then (.error .noDataNorTemplate, [])
  else
    let tpl := templateArg.getD defaultTemplate
    match parseTemplate tpl datafile with
    | .error e => (.error e, [])
    | .ok tds => plotLoadAll outcome revisions isDirty tds

/-! ## Default template fill (`DefaultTemplate.fill` in `dvc/plot.py`) and
the record pipeline (`PlotData.to_datapoints` in `dvc/repo/plot/data.py`). -/

/-- Python set equality of key sets: mutual membership. -/
def keySetEqB (ks ls : List Key) : Bool :=
  ks.all (fun k => k ∈ ls) && ls.all (fun k => k ∈ ks)

/-- The guard asserted by `DefaultTemplate.fill`:
`all({"x", "y", "revision"} == set(d.keys()) for d in data)`. -/
def fillCheck (data : List Record) : Bool :=
  data.all (fun d => keySetEqB (recKeys d) [some "x", some "y", some "revision"])

/-- Errors escaping the record pipeline. -/
inductive PipeErr where
  | fieldNotFound (e : FilterErr)
  | crash
deriving DecidableEq, Repr

/-- `PlotData.to_datapoints(**kwargs)` for the base processor chain
(`_filter_fields` then `_transform_to_default_data`), followed by tagging
every resulting record with `data_point["rev"] = self.revision`. -/
def toDatapoints (raw : List Record) (fns : Option (List String))
    (fields : List String) (defaultPlot : Bool) (revision : String) :
    Except PipeErr (List Record) :=
  match filterFields raw fns fields with
  | .error e => .error (.fieldNotFound e)
  | .ok (d1, f1) =>
    match transformToDefaultData d1 f1 defaultPlot with
    | none => .error .crash
    | some (d2, _) =>
      .ok (d2.map (fun dp => setKey dp (some "rev") (Val.s revision)))

/-! ## Helper lemmas -/

lemma loadLoop_eq_of_no_otherError {α ε : Type} (outcome : String → Outcome α ε)
    (revs : List String)
    (h : ∀ r ∈ revs, ∀ e, outcome r ≠ Outcome.otherError e) :
    loadLoop outcome revs
      = .ok (revs.filterMap (fun r => (outcome r).val?),
             revs.filter (fun r => (outcome r).isNotFound)) := by
  induction revs with
  | nil => rfl
  | cons r rest ih =>
    have hrest : ∀ x ∈ rest, ∀ e, outcome x ≠ Outcome.otherError e :=
      fun x hx => h x (List.mem_cons_of_mem r hx)
    cases hout : outcome r with
    | ok a =>
      simp [loadLoop, hout, ih hrest, Outcome.val?, Outcome.isNotFound,
        List.filterMap_cons, List.filter_cons]
    | notFound =>
      simp [loadLoop, hout, ih hrest, Outcome.val?, Outcome.isNotFound,
        List.filterMap_cons, List.filter_cons]
    | otherError e => exact absurd hout (h r (List.mem_cons_self r rest) e)

/-- C1: for every datafile and non-empty revision list in which every
revision's load either succeeds or reports the file as missing (the claim's
domain; any other exception propagates by design), the loader returns the
merged payloads of the successful revisions in the caller's revision order
together with one warned-about missing revision per not-found load whenever
at least one revision produced data, and it raises
`NoMetricInHistoryError` exactly when no revision produced data and at
least one revision was missing. -/
theorem c1_multi_revision_loader {α ε : Type}
    (outcome : String → Outcome α ε) (datafile : String)
    (revisions : List String) (_hne : revisions ≠ [])
    (hno : ∀ r ∈ revisions, ∀ e, outcome r ≠ Outcome.otherError e) :
    ((∃ r ∈ revisions, ∃ a, outcome r = Outcome.ok a) →
       loadFromRevisionsData outcome datafile revisions
         = .ok (revisions.filterMap (fun r => (outcome r).val?),
                revisions.filter (fun r => (outcome r).isNotFound)))
    ∧ (loadFromRevisionsData outcome datafile revisions
         = .error (.noMetricInHistory datafile revisions)
       ↔ ((∀ r ∈ revisions, ∀ a, outcome r ≠ Outcome.ok a)
           ∧ ∃ r ∈ revisions, outcome r = Outcome.notFound)) := by
  unfold loadFromRevisionsData
  rw [loadLoop_eq_of_no_otherError outcome revisions hno]
  constructor
  · rintro ⟨r, hr, a, ha⟩
    have hmem : a ∈ revisions.filterMap (fun r => (outcome r).val?) :=
      List.mem_filterMap.2 ⟨r, hr, by simp [ha, Outcome.val?]⟩
    cases hD : revisions.filterMap (fun r => (outcome r).val?) with
    | nil => rw [hD] at hmem; cases hmem
    | cons d ds => simp
  · cases hD : revisions.filterMap (fun r => (outcome r).val?) with
    | cons d ds =>
      have : ∃ r ∈ revisions, ∃ a, outcome r = Outcome.ok a := by
        have hmem : d ∈ revisions.filterMap (fun r => (outcome r).val?) := by
          rw [hD]; exact List.mem_cons_self d ds
        obtain ⟨r, hr, hv⟩ := List.mem_filterMap.1 hmem
        refine ⟨r, hr, ?_⟩
        cases hout : outcome r <;> simp [hout, Outcome.val?] at hv ⊢
      constructor
      · intro hcontra; simp at hcontra
      · rintro ⟨hnok, -⟩
        obtain ⟨r, hr, a, ha⟩ := this
        exact absurd ha (hnok r hr a)
    | nil =>
      have hnok : ∀ r ∈ revisions, ∀ a, outcome r ≠ Outcome.ok a := by
        intro r hr a ha
        have : (outcome r).val? = none := by
          have := List.filterMap_eq_nil_iff.1 hD r hr
          exact this
        rw [ha] at this; simp [Outcome.val?] at this
      cases hM : revisions.filter (fun r => (outcome r).isNotFound) with
      | nil =>
        have hnonf : ¬ ∃ r ∈ revisions, outcome r = Outcome.notFound := by
          rintro ⟨r, hr, hnf⟩
          have : r ∈ revisions.filter (fun r => (outcome r).isNotFound) :=
            List.mem_filter.2 ⟨hr, by simp [hnf, Outcome.isNotFound]⟩
          rw [hM] at this; cases this
        constructor
        · intro hcontra; simp at hcontra
        · rintro ⟨-, hex⟩; exact absurd hex hnonf
      | cons m ms =>
        have hnf : ∃ r ∈ revisions, outcome r = Outcome.notFound := by
          have hmem : m ∈ revisions.filter (fun r => (outcome r).isNotFound) := by
            rw [hM]; exact List.mem_cons_self m ms
          obtain ⟨hr, hv⟩ := List.mem_filter.1 hmem
          refine ⟨m, hr, ?_⟩
          cases hout : outcome m <;> simp [hout, Outcome.isNotFound] at hv ⊢
        exact ⟨fun _ => ⟨hnok, hnf⟩, fun _ => rfl⟩

/-- Witness for C1 at a concrete input: revisions `["v1", "v2"]` with the
file found at `v1` and missing at `v2` yield the `v1` payload and a warning
for `v2`, and the not-found error is not raised. -/
theorem c1_multi_revision_loader_witness :
    loadFromRevisionsData
        (fun r => if r = "v1" then (Outcome.ok 1 : Outcome Nat Empty)
                  else Outcome.notFound)
        "metric.json" ["v1", "v2"]
      = .ok ([1], ["v2"]) := by
  have h := c1_multi_revision_loader
    (fun r => if r = "v1" then (Outcome.ok 1 : Outcome Nat Empty)
              else Outcome.notFound)
    "metric.json" ["v1", "v2"] (by decide)
    (by intro r hr e; exact e.elim)
  have := h.1 ⟨"v1", by decide, 1, by rfl⟩
  simpa using this

/-- C2 counterexample: with exactly one supplied revision and a dirty
working tree, the loader's final revision list is `["v1", "workspace"]` —
`"HEAD"` is not added, contradicting the claim that the most recent
historical checkpoint is prepended for one supplied revision as well. -/
theorem c2_revision_defaulting_counterexample :
    (loadFromRevisionsPlot
        (fun _ => (Outcome.ok [0] : Outcome (List Nat) Empty))
        "metric.json" ["v1"] true).2 = ["v1", "workspace"]
    ∧ "HEAD" ∉ (loadFromRevisionsPlot
        (fun _ => (Outcome.ok [0] : Outcome (List Nat) Empty))
        "metric.json" ["v1"] true).2 := by
  constructor
  · rfl
  · intro h
    have : ("HEAD" : String) ∈ ["v1", "workspace"] := by
      simpa [loadFromRevisionsPlot, defaultRevisions] using h
    simp at this

/-- C2 amended: with zero or one explicit revision the loader appends the
reserved `"workspace"` revision to the caller's list; `"HEAD"` is
additionally appended before `"workspace"` only when zero revisions were
supplied and the working tree is dirty (one supplied revision never gains
`"HEAD"`, dirty or not). -/
theorem c2_revision_defaulting {α ε : Type}
    (outcome : String → Outcome (List α) ε) (datafile : String)
    (revisions : List String) (isDirty : Bool)
    (h : revisions.length ≤ 1) :
    (loadFromRevisionsPlot outcome datafile revisions isDirty).2
      = revisions
        ++ (if revisions.length = 0 ∧ isDirty = true then ["HEAD"] else [])
        ++ ["workspace"] := by
  show defaultRevisions revisions isDirty = _
  unfold defaultRevisions
  rw [if_pos h]
  by_cases hz : revisions.length = 0 ∧ isDirty = true
  · rw [if_pos hz, if_pos hz, List.append_assoc]
  · rw [if_neg hz, if_neg hz, List.append_nil]

/-- Witness for C2 at concrete inputs: an empty revision list on a dirty
tree becomes `["HEAD", "workspace"]`. -/
theorem c2_revision_defaulting_witness :
    (loadFromRevisionsPlot
        (fun _ => (Outcome.ok [0] : Outcome (List Nat) Empty))
        "metric.json" [] true).2 = ["HEAD", "workspace"] := by
  have h := c2_revision_defaulting
    (fun _ => (Outcome.ok [0] : Outcome (List Nat) Empty))
    "metric.json" [] true (by decide)
  simpa using h

/-- C10: the loader's revision-list state after the call (the caller's list
object, mutated in place, modelled by explicit state passing) is the
caller's list extended with `"workspace"` (preceded by `"HEAD"` for an
empty list on a dirty tree) when at most one revision was supplied, and is
the caller's list unchanged when two or more were supplied; whenever
`NoMetricInHistoryError` is raised, the revision list it reports is exactly
that final (extended) list. -/
theorem c10_revisions_mutated_in_place {α ε : Type}
    (outcome : String → Outcome (List α) ε) (datafile : String)
    (revisions : List String) (isDirty : Bool) :
    (revisions.length ≤ 1 →
       (loadFromRevisionsPlot outcome datafile revisions isDirty).2
         = revisions
           ++ (if revisions.length = 0 ∧ isDirty = true then ["HEAD"] else [])
           ++ ["workspace"])
    ∧ (2 ≤ revisions.length →
       (loadFromRevisionsPlot outcome datafile revisions isDirty).2
         = revisions)
    ∧ (∀ p rl, (loadFromRevisionsPlot outcome datafile revisions isDirty).1
         = .error (.noMetricInHistory p rl) →
       p = datafile
       ∧ rl = (loadFromRevisionsPlot outcome datafile revisions isDirty).2) := by
  refine ⟨?_, ?_, ?_⟩
  · intro h
    show defaultRevisions revisions isDirty = _
    unfold defaultRevisions
    rw [if_pos h]
    by_cases hz : revisions.length = 0 ∧ isDirty = true
    · rw [if_pos hz, if_pos hz, List.append_assoc]
    · rw [if_neg hz, if_neg hz, List.append_nil]
  · intro h
    show defaultRevisions revisions isDirty = _
    unfold defaultRevisions
    rw [if_neg (by omega)]
  · intro p rl h
    unfold loadFromRevisionsPlot at h ⊢
    dsimp only at h ⊢
    cases hl : loadLoopExtend outcome (defaultRevisions revisions isDirty) with
    | error e => rw [hl] at h; cases h
    | ok dm =>
      rw [hl] at h
      obtain ⟨data, missing⟩ := dm
      cases data with
      | nil =>
        cases missing with
        | nil => cases h
        | cons m ms =>
          simp only at h
          cases h
          exact ⟨rfl, rfl⟩
      | cons d ds => cases h

/-- Witness for C10 at concrete inputs: a two-element caller list is left
unchanged, and a one-element list whose only revision is missing together
with the appended `"workspace"` also missing raises
`NoMetricInHistoryError` naming the extended list. -/
theorem c10_revisions_mutated_in_place_witness :
    (loadFromRevisionsPlot
        (fun _ => (Outcome.notFound : Outcome (List Nat) Empty))
        "metric.json" ["v1", "v2"] false).2 = ["v1", "v2"]
    ∧ "workspace"
        ∈ (loadFromRevisionsPlot
            (fun _ => (Outcome.notFound : Outcome (List Nat) Empty))
            "metric.json" ["v1"] false).2 := by
  constructor
  · exact (c10_revisions_mutated_in_place
      (fun _ => (Outcome.notFound : Outcome (List Nat) Empty))
      "metric.json" ["v1", "v2"] false).2.1 (by decide)
  · rw [(c10_revisions_mutated_in_place
      (fun _ => (Outcome.notFound : Outcome (List Nat) Empty))
      "metric.json" ["v1"] false).1 (by decide)]
    decide

/-- C5: when the caller names exactly one explicit data file and the
resolved template carries more than one distinct data-source placeholder,
`plot` fails with `TooManyDataSourcesError` and the load trace is empty —
no (datafile, revision) content load was attempted. -/
theorem c5_too_many_data_sources {α ε : Type} (defaultTemplate : Template)
    (templateArg : Option Template) (d : String) (revisions : List String)
    (isDirty : Bool) (outcome : String → String → Outcome (List α) ε)
    (h : 1 < (parseDataPlaceholders (templateArg.getD defaultTemplate)).length) :
    plotRun defaultTemplate templateArg (some d) revisions isDirty outcome
      = (.error (.tooManyDataSources d
           (parseDataPlaceholders (templateArg.getD defaultTemplate))), []) := by
  unfold plotRun
  rw [if_neg (by simp)]
  unfold parseTemplate
  dsimp only
  rw [if_pos h]

/-- Witness for C5 at a concrete input: the default template resolved from
an absent template argument has two distinct placeholders, and a supplied
single datafile makes `plot` fail with an empty load trace. -/
theorem c5_too_many_data_sources_witness :
    plotRun (Template.mk ["a.csv", "b.csv"]) none (some "metric.csv")
        ["v1"] false (fun _ _ => (Outcome.ok [0] : Outcome (List Nat) Empty))
      = (.error (.tooManyDataSources "metric.csv" ["a.csv", "b.csv"]), []) := by
  have h := c5_too_many_data_sources (Template.mk ["a.csv", "b.csv"]) none
    "metric.csv" ["v1"] false
    (fun _ _ => (Outcome.ok [0] : Outcome (List Nat) Empty))
    (by decide)
  simpa using h

/-- C6: `plot_data` dispatches on the lowercased filename extension —
`.json` selects the JSON parser, `.csv` the CSV parser with delimiter
`','`, `.tsv` the CSV parser with delimiter tab, `.yaml` the YAML parser,
and any other extension raises `PlotMetricTypeError` (fatal). -/
theorem c6_format_dispatch (filename : String) :
    (splitextExt (lowerString filename) ∉ [".json", ".csv", ".tsv", ".yaml"] →
       plotDataSel filename = .error filename)
    ∧ (splitextExt (lowerString filename) = ".json" →
       plotDataSel filename = .ok .jsonParser)
    ∧ (splitextExt (lowerString filename) = ".csv" →
       plotDataSel filename = .ok (.csvParser ','))
    ∧ (splitextExt (lowerString filename) = ".tsv" →
       plotDataSel filename = .ok (.csvParser '\t'))
    ∧ (splitextExt (lowerString filename) = ".yaml" →
       plotDataSel filename = .ok .yamlParser) := by
  unfold plotDataSel
  dsimp only
  refine ⟨fun h => ?_, fun h => ?_, fun h => ?_, fun h => ?_, fun h => ?_⟩
  · simp only [List.mem_cons, List.not_mem_nil, or_false, not_or] at h
    rw [if_neg h.1, if_neg h.2.1, if_neg h.2.2.1, if_neg h.2.2.2]
  · rw [if_pos h]
  · rw [if_neg (by rw [h]; decide), if_pos h]
  · rw [if_neg (by rw [h]; decide), if_neg (by rw [h]; decide), if_pos h]
  · rw [if_neg (by rw [h]; decide), if_neg (by rw [h]; decide),
      if_neg (by rw [h]; decide), if_pos h]

/-- Witness for C6 at concrete inputs: one filename per dispatch case,
including an uppercase name that is lowercased first and an unsupported
extension that is rejected. -/
theorem c6_format_dispatch_witness :
    plotDataSel "metric.txt" = .error "metric.txt"
    ∧ plotDataSel "Metric.JSON" = .ok .jsonParser
    ∧ plotDataSel "m.csv" = .ok (.csvParser ',')
    ∧ plotDataSel "m.tsv" = .ok (.csvParser '\t')
    ∧ plotDataSel "m.yaml" = .ok .yamlParser :=
  ⟨(c6_format_dispatch "metric.txt").1 (by decide),
   (c6_format_dispatch "Metric.JSON").2.1 (by decide),
   (c6_format_dispatch "m.csv").2.2.1 (by decide),
   (c6_format_dispatch "m.tsv").2.2.2.1 (by decide),
   (c6_format_dispatch "m.yaml").2.2.2.2 (by decide)⟩

lemma filterLoop_cons (fields : List String) (dp : Record) (rest : List Record)
    (fns : Option (List String)) :
    filterLoop fields (dp :: rest) fns
      = if ∀ f ∈ fields, (some f : Key) ∈ recKeys dp then
          match filterLoop fields rest
              ((keysToDelete fields (recKeys dp)).foldl
                removeKeyFromFieldnames fns) with
          | .error e => .error e
          | .ok (ds, fns'') => .ok (projectRecord fields dp :: ds, fns'')
        else .error (.fieldNotFound fields (recKeys dp)) := rfl

lemma filterLoop_ok (fields : List String) :
    ∀ (dps : List Record) (fns fns' : Option (List String)) (ds : List Record),
    filterLoop fields dps fns = .ok (ds, fns') →
    ds = dps.map (projectRecord fields)
    ∧ ∀ dp ∈ dps, ∀ f ∈ fields, (some f : Key) ∈ recKeys dp := by
  intro dps
  induction dps with
  | nil =>
    intro fns fns' ds h
    simp only [filterLoop] at h
    cases h
    exact ⟨rfl, by simp⟩
  | cons dp rest ih =>
    intro fns fns' ds h
    rw [filterLoop_cons] at h
    by_cases hchk : ∀ f ∈ fields, (some f : Key) ∈ recKeys dp
    · rw [if_pos hchk] at h
      cases hrec : filterLoop fields rest
          ((keysToDelete fields (recKeys dp)).foldl
            removeKeyFromFieldnames fns) with
      | error e => rw [hrec] at h; cases h
      | ok p =>
        obtain ⟨ds0, f0⟩ := p
        rw [hrec] at h
        cases h
        obtain ⟨hshape, hall⟩ := ih _ _ _ hrec
        refine ⟨by rw [List.map_cons, hshape], ?_⟩
        intro dp' hdp'
        rcases List.mem_cons.1 hdp' with h1 | h2
        · rw [h1]; exact hchk
        · exact hall dp' h2
    · rw [if_neg hchk] at h; cases h

lemma filterLoop_error (fields : List String) :
    ∀ (dps : List Record) (fns : Option (List String)) (e : FilterErr),
    filterLoop fields dps fns = .error e →
    ∃ dp ∈ dps, (¬ ∀ f ∈ fields, (some f : Key) ∈ recKeys dp)
      ∧ e = .fieldNotFound fields (recKeys dp) := by
  intro dps
  induction dps with
  | nil => intro fns e h; simp only [filterLoop] at h; cases h
  | cons dp rest ih =>
    intro fns e h
    rw [filterLoop_cons] at h
    by_cases hchk : ∀ f ∈ fields, (some f : Key) ∈ recKeys dp
    · rw [if_pos hchk] at h
      cases hrec : filterLoop fields rest
          ((keysToDelete fields (recKeys dp)).foldl
            removeKeyFromFieldnames fns) with
      | error e' =>
        rw [hrec] at h
        cases h
        obtain ⟨dp', hmem, hbad, hform⟩ := ih _ _ hrec
        exact ⟨dp', List.mem_cons_of_mem dp hmem, hbad, hform⟩
      | ok p => obtain ⟨ds0, f0⟩ := p; rw [hrec] at h; cases h
    · rw [if_neg hchk] at h
      cases h
      exact ⟨dp, List.mem_cons_self dp rest, hchk, rfl⟩

lemma filterLoop_error_exists (fields : List String) :
    ∀ (dps : List Record) (fns : Option (List String)),
    (∃ dp ∈ dps, ¬ ∀ f ∈ fields, (some f : Key) ∈ recKeys dp) →
    ∃ e, filterLoop fields dps fns = .error e := by
  intro dps
  induction dps with
  | nil => rintro fns ⟨dp, hmem, -⟩; cases hmem
  | cons dp rest ih =>
    rintro fns ⟨dp', hmem, hbad⟩
    rw [filterLoop_cons _ dp rest fns]
    by_cases hchk : ∀ f ∈ fields, (some f : Key) ∈ recKeys dp
    · rcases List.mem_cons.1 hmem with h1 | h2
      · rw [h1] at hbad; exact absurd hchk hbad
      · obtain ⟨e, he⟩ := ih _ ⟨dp', h2, hbad⟩
        rw [if_pos hchk, he]
        exact ⟨e, rfl⟩
    · rw [if_neg hchk]
      exact ⟨.fieldNotFound fields (recKeys dp), rfl⟩

lemma mem_recKeys_projectRecord (fields : List String) (dp : Record)
    (f : String) (hf : f ∈ fields) (hmem : (some f : Key) ∈ recKeys dp) :
    (some f : Key) ∈ recKeys (projectRecord fields dp) := by
  obtain ⟨kv, hkv, hk⟩ := List.mem_map.1 hmem
  refine List.mem_map.2 ⟨kv, ?_, hk⟩
  refine List.mem_filter.2 ⟨hkv, ?_⟩
  simp only [decide_eq_true_eq]
  rw [hk]
  exact List.mem_map.2 ⟨f, hf, rfl⟩

lemma recKeys_projectRecord_subset (fields : List String) (dp : Record) :
    ∀ k ∈ recKeys (projectRecord fields dp), k ∈ fields.map some := by
  intro k hk
  obtain ⟨kv, hkv, hkeq⟩ := List.mem_map.1 hk
  have := (List.mem_filter.1 hkv).2
  simp only [decide_eq_true_eq] at this
  rw [← hkeq]
  exact this

lemma filterLoop_fixed (fields : List String) :
    ∀ (ds : List Record) (g : Option (List String)),
    (∀ dp ∈ ds, (∀ f ∈ fields, (some f : Key) ∈ recKeys dp)
      ∧ (∀ k ∈ recKeys dp, k ∈ fields.map some)) →
    filterLoop fields ds g = .ok (ds, g) := by
  intro ds
  induction ds with
  | nil => intro g _; rfl
  | cons dp rest ih =>
    intro g h
    obtain ⟨hchk, hsub⟩ := h dp (List.mem_cons_self dp rest)
    rw [filterLoop_cons, if_pos hchk]
    have hdel : keysToDelete fields (recKeys dp) = [] := by
      unfold keysToDelete
      rw [List.filter_eq_nil_iff.2, List.dedup_nil]
      intro k hk
      simp only [decide_eq_true_eq, not_not]
      exact hsub k hk
    rw [hdel]
    simp only [List.foldl_nil]
    rw [ih g (fun dp' h' => h dp' (List.mem_cons_of_mem dp h'))]
    have hproj : projectRecord fields dp = dp := by
      unfold projectRecord
      rw [List.filter_eq_self.2]
      intro kv hkv
      simp only [decide_eq_true_eq]
      exact hsub kv.1 (List.mem_map.2 ⟨kv, hkv, rfl⟩)
    rw [hproj]

lemma foldl_removeKey_nodup (ks : List Key) :
    ∀ (l : List String), l.Nodup →
    ks.foldl removeKeyFromFieldnames (some l)
      = some (l.filter (fun x => (some x : Key) ∉ ks)) := by
  induction ks with
  | nil =>
    intro l _
    simp [List.foldl_nil]
  | cons k ks ih =>
    intro l hl
    rw [List.foldl_cons]
    cases k with
    | none =>
      have hstep : removeKeyFromFieldnames (some l) none = some l := rfl
      rw [hstep, ih l hl]
      congr 1
      apply List.filter_congr
      intro x hx
      simp [List.mem_cons]
    | some s =>
      by_cases hc : l ≠ [] ∧ s ∈ l
      · have hstep : removeKeyFromFieldnames (some l) (some s)
            = some (l.erase s) := by
          unfold removeKeyFromFieldnames
          dsimp only
          rw [if_pos hc]
        rw [hstep, ih (l.erase s) (hl.erase s)]
        rw [List.Nodup.erase_eq_filter hl]
        rw [List.filter_filter]
        congr 1
        apply List.filter_congr
        intro x hx
        by_cases hxk : (some x : Key) ∈ ks
          <;> by_cases hxs : x = s <;> simp [hxk, hxs, List.mem_cons]
      · have hstep : removeKeyFromFieldnames (some l) (some s) = some l := by
          unfold removeKeyFromFieldnames
          dsimp only
          rw [if_neg hc]
        rw [hstep, ih l hl]
        rcases Classical.em (l = []) with hnil | hnnil
        · subst hnil; simp
        · have hs : s ∉ l := by
            by_contra hmem
            exact hc ⟨hnnil, hmem⟩
          congr 1
          apply List.filter_congr
          intro x hx
          have hxs : x ≠ s := fun hxe => hs (hxe ▸ hx)
          simp [List.mem_cons, hxs]

lemma removeKeys_record_narrow (fields : List String) (keys : List Key)
    (l : List String) (hl : l.Nodup)
    (hsub : ∀ x ∈ l, (some x : Key) ∈ keys) :
    (keysToDelete fields keys).foldl removeKeyFromFieldnames (some l)
      = some (l.filter (fun x => x ∈ fields)) := by
  rw [foldl_removeKey_nodup _ l hl]
  congr 1
  apply List.filter_congr
  intro x hx
  have hmem : ((some x : Key) ∈ keysToDelete fields keys) ↔ ¬ x ∈ fields := by
    unfold keysToDelete
    rw [List.mem_dedup, List.mem_filter]
    simp only [decide_eq_true_eq]
    constructor
    · rintro ⟨-, hnot⟩ hxf
      exact hnot (List.mem_map.2 ⟨x, hxf, rfl⟩)
    · intro hxf
      refine ⟨hsub x hx, fun hcontra => ?_⟩
      obtain ⟨y, hy, hye⟩ := List.mem_map.1 hcontra
      cases hye
      exact hxf hy
  simp [hmem]

lemma foldl_removeKey_skip (ks : List Key) :
    ∀ (l : List String), (∀ k ∈ ks, ∀ x ∈ l, (some x : Key) ≠ k) →
    ks.foldl removeKeyFromFieldnames (some l) = some l := by
  induction ks with
  | nil => intro l _; rfl
  | cons k ks ih =>
    intro l h
    rw [List.foldl_cons]
    have hstep : removeKeyFromFieldnames (some l) k = some l := by
      cases k with
      | none => rfl
      | some s =>
        unfold removeKeyFromFieldnames
        dsimp only
        rw [if_neg]
        rintro ⟨-, hs⟩
        exact h (some s) (List.mem_cons_self _ _) s hs rfl
    rw [hstep]
    exact ih l (fun k' hk' => h k' (List.mem_cons_of_mem k hk'))

lemma filterLoop_fns_constant (fields : List String) :
    ∀ (dps : List Record) (l : List String) (ds : List Record)
      (fns' : Option (List String)),
    (∀ x ∈ l, x ∈ fields) →
    filterLoop fields dps (some l) = .ok (ds, fns') →
    fns' = some l := by
  intro dps
  induction dps with
  | nil =>
    intro l ds fns' _ h
    simp only [filterLoop] at h
    cases h
    rfl
  | cons dp rest ih =>
    intro l ds fns' hsub h
    rw [filterLoop_cons] at h
    by_cases hchk : ∀ f ∈ fields, (some f : Key) ∈ recKeys dp
    · rw [if_pos hchk] at h
      have hfold : (keysToDelete fields (recKeys dp)).foldl
          removeKeyFromFieldnames (some l) = some l := by
        apply foldl_removeKey_skip
        intro k hk x hx heq
        have hnotf : ¬ k ∈ fields.map some := by
          have := List.mem_filter.1 (List.mem_dedup.1 hk)
          simpa using this.2
        exact hnotf (heq ▸ List.mem_map.2 ⟨x, hsub x hx, rfl⟩)
      rw [hfold] at h
      cases hrec : filterLoop fields rest (some l) with
      | error e => rw [hrec] at h; cases h
      | ok p =>
        obtain ⟨ds0, f0⟩ := p
        rw [hrec] at h
        cases h
        exact ih l ds0 fns' hsub hrec
    · rw [if_neg hchk] at h; cases h

lemma filterLoop_fns_narrow (fields : List String) (dp : Record)
    (rest : List Record) (l : List String) (ds : List Record)
    (fns' : Option (List String)) (hl : l.Nodup)
    (hsub : ∀ x ∈ l, ∀ dp' ∈ dp :: rest, (some x : Key) ∈ recKeys dp')
    (h : filterLoop fields (dp :: rest) (some l) = .ok (ds, fns')) :
    fns' = some (l.filter (fun x => x ∈ fields)) := by
  rw [filterLoop_cons] at h
  by_cases hchk : ∀ f ∈ fields, (some f : Key) ∈ recKeys dp
  · rw [if_pos hchk] at h
    have hfold : (keysToDelete fields (recKeys dp)).foldl
        removeKeyFromFieldnames (some l)
          = some (l.filter (fun x => x ∈ fields)) :=
      removeKeys_record_narrow fields (recKeys dp) l hl
        (fun x hx => hsub x hx dp (List.mem_cons_self dp rest))
    rw [hfold] at h
    cases hrec : filterLoop fields rest
        (some (l.filter (fun x => x ∈ fields))) with
    | error e => rw [hrec] at h; cases h
    | ok p =>
      obtain ⟨ds0, f0⟩ := p
      rw [hrec] at h
      cases h
      apply filterLoop_fns_constant fields rest _ ds0 fns' _ hrec
      intro x hx
      have := List.mem_filter.1 hx
      simpa using this.2
  · rw [if_neg hchk] at h; cases h

/-- C3 counterexample: a header-only CSV (`"a,b\n"`) parses to zero records
with FieldNames `["a", "b"]`; projecting that record list onto the
requested field set `{"a"}` succeeds but returns FieldNames unnarrowed as
`["a", "b"]`, not narrowed to the requested fields `["a"]` — the narrowing
clause of the claim is false as stated. -/
theorem c3_field_projection_counterexample :
    csvRaw ',' "a,b\n" = some ([], some ["a", "b"])
    ∧ filterFields [] (some ["a", "b"]) ["a"] = .ok ([], some ["a", "b"])
    ∧ (some ["a", "b"] : Option (List String)) ≠ some ["a"] :=
  ⟨by rfl, by rfl, by decide⟩

/-- C3, amended: for every record list and non-empty requested field set,
`_filter_fields` fails (with an error carrying the requested fields and the
offending record's actual keys) if and only if some record's key set does
not contain every requested field; on success it returns the projected
copies whose key sets are exactly the requested fields; and FieldNames is
narrowed to the requested fields when there is at least one record and
FieldNames is duplicate-free with every one of its names among each
record's keys (narrowing happens only inside the per-record loop, so with
no records — or with FieldNames entries that no record deletion touches —
FieldNames is returned unnarrowed).  The claim's two concrete examples are
included. -/
theorem c3_field_projection (dps : List Record) (fns : Option (List String))
    (fields : List String) (hne : fields ≠ []) :
    (((∃ e, filterFields dps fns fields = .error e)
        ↔ ∃ dp ∈ dps, ∃ f ∈ fields, (some f : Key) ∉ recKeys dp)
     ∧ (∀ e, filterFields dps fns fields = .error e →
          ∃ dp ∈ dps, e = .fieldNotFound fields (recKeys dp)
            ∧ ∃ f ∈ fields, (some f : Key) ∉ recKeys dp)
     ∧ (∀ ds fns', filterFields dps fns fields = .ok (ds, fns') →
          ds = dps.map (projectRecord fields)
          ∧ ∀ dp' ∈ ds, ∀ k : Key, k ∈ recKeys dp' ↔ k ∈ fields.map some)
     ∧ (∀ l ds fns', fns = some l → l.Nodup → dps ≠ [] →
          (∀ x ∈ l, ∀ dp ∈ dps, (some x : Key) ∈ recKeys dp) →
          filterFields dps fns fields = .ok (ds, fns') →
          fns' = some (l.filter (fun x => x ∈ fields))))
    ∧ filterFields
        [[(some "x", Val.i 1), (some "y", Val.i 2), (some "z", Val.i 3)]]
        none ["x", "y"]
      = .ok ([[(some "x", Val.i 1), (some "y", Val.i 2)]], none)
    ∧ filterFields
        [[(some "x", Val.i 1), (some "y", Val.i 2), (some "z", Val.i 3)]]
        none ["w"]
      = .error (.fieldNotFound ["w"] [some "x", some "y", some "z"]) := by
  refine ⟨⟨?_, ?_, ?_, ?_⟩, by rfl, by rfl⟩
  · unfold filterFields
    rw [if_neg hne]
    constructor
    · rintro ⟨e, he⟩
      obtain ⟨dp, hmem, hbad, -⟩ := filterLoop_error fields dps fns e he
      rw [not_forall] at hbad
      obtain ⟨f, hf⟩ := hbad
      rw [Classical.not_imp] at hf
      exact ⟨dp, hmem, f, hf.1, hf.2⟩
    · rintro ⟨dp, hmem, f, hf, hnot⟩
      apply filterLoop_error_exists fields dps fns
      refine ⟨dp, hmem, ?_⟩
      intro hall
      exact hnot (hall f hf)
  · unfold filterFields
    rw [if_neg hne]
    intro e he
    obtain ⟨dp, hmem, hbad, hform⟩ := filterLoop_error fields dps fns e he
    rw [not_forall] at hbad
    obtain ⟨f, hf⟩ := hbad
    rw [Classical.not_imp] at hf
    exact ⟨dp, hmem, hform, f, hf.1, hf.2⟩
  · unfold filterFields
    rw [if_neg hne]
    intro ds fns' h
    obtain ⟨hshape, hall⟩ := filterLoop_ok fields dps fns fns' ds h
    refine ⟨hshape, ?_⟩
    intro dp' hdp' k
    rw [hshape] at hdp'
    obtain ⟨dp, hdp, rfl⟩ := List.mem_map.1 hdp'
    constructor
    · exact recKeys_projectRecord_subset fields dp k
    · intro hk
      obtain ⟨f, hf, rfl⟩ := List.mem_map.1 hk
      exact mem_recKeys_projectRecord fields dp f hf (hall dp hdp f hf)
  · unfold filterFields
    rw [if_neg hne]
    intro l ds fns' hfns hl hdps hsub h
    subst hfns
    cases dps with
    | nil => exact absurd rfl hdps
    | cons dp rest =>
      exact filterLoop_fns_narrow fields dp rest l ds fns' hl hsub h

/-- Witness for C3 at a concrete input: requesting `{"b"}` from one record
with keys `{a, b}` and FieldNames `["a", "b"]` succeeds, projects the record
to its `b` entry, and narrows FieldNames to `["b"]`. -/
theorem c3_field_projection_witness :
    filterFields [[(some "a", Val.s "1"), (some "b", Val.s "2")]]
        (some ["a", "b"]) ["b"]
      = .ok ([[(some "b", Val.s "2")]], some ["b"])
    ∧ [[(some "b", Val.s "2")]]
      = [[(some "a", Val.s "1"), (some "b", Val.s "2")]].map
          (projectRecord ["b"])
    ∧ (some ["b"] : Option (List String))
      = some (["a", "b"].filter (fun x => x ∈ ["b"])) := by
  have h := c3_field_projection
    [[(some "a", Val.s "1"), (some "b", Val.s "2")]] (some ["a", "b"]) ["b"]
    (by decide)
  have hok : filterFields [[(some "a", Val.s "1"), (some "b", Val.s "2")]]
      (some ["a", "b"]) ["b"]
        = .ok ([[(some "b", Val.s "2")]], some ["b"]) := by rfl
  refine ⟨hok, (h.1.2.2.1 _ _ hok).1, ?_⟩
  have := h.1.2.2.2 ["a", "b"] [[(some "b", Val.s "2")]] (some ["b"]) rfl
    (by decide) (by decide) (by decide) hok
  exact this

/-- C7: projection is idempotent — whenever `_filter_fields` succeeds,
applying it again with the same field set to the projected records and
narrowed FieldNames succeeds and returns them unchanged. -/
theorem c7_projection_idempotent (dps : List Record)
    (fns : Option (List String)) (fields : List String)
    (out : List Record × Option (List String))
    (h : filterFields dps fns fields = .ok out) :
    filterFields out.1 out.2 fields = .ok out := by
  unfold filterFields at h ⊢
  by_cases hf : fields = []
  · rw [if_pos hf] at h ⊢
  · rw [if_neg hf] at h ⊢
    obtain ⟨ds, fns'⟩ := out
    obtain ⟨hshape, hall⟩ := filterLoop_ok fields dps fns fns' ds h
    apply filterLoop_fixed
    intro dp' hdp'
    rw [hshape] at hdp'
    obtain ⟨dp, hdp, rfl⟩ := List.mem_map.1 hdp'
    exact ⟨fun f hf' =>
        mem_recKeys_projectRecord fields dp f hf' (hall dp hdp f hf'),
      recKeys_projectRecord_subset fields dp⟩

/-- Witness for C7 at a concrete input: re-projecting the projected record
set onto the same field set returns it unchanged. -/
theorem c7_projection_idempotent_witness :
    filterFields [[(some "x", Val.i 1), (some "y", Val.i 2)]] none ["x", "y"]
      = .ok ([[(some "x", Val.i 1), (some "y", Val.i 2)]], none) :=
  c7_projection_idempotent
    [[(some "x", Val.i 1), (some "y", Val.i 2), (some "z", Val.i 3)]]
    none ["x", "y"] ([[(some "x", Val.i 1), (some "y", Val.i 2)]], none)
    (by rfl)

lemma transformLoop_eq (y : Key) :
    ∀ (dps : List Record) (n : Nat),
    (∀ dp ∈ dps, (lookupKey y dp).isSome) →
    transformLoop y dps n
      = some (dps.mapIdx (fun i dp =>
          [(some "x", Val.i (Int.ofNat (n + i))),
           (some "y", (lookupKey y dp).getD Val.nil)])) := by
  intro dps
  induction dps with
  | nil => intro n _; rfl
  | cons dp rest ih =>
    intro n h
    have hdp := h dp (List.mem_cons_self dp rest)
    obtain ⟨v, hv⟩ := Option.isSome_iff_exists.1 hdp
    have hrest := ih (n + 1) (fun dp' h' => h dp' (List.mem_cons_of_mem dp h'))
    unfold transformLoop
    rw [hv, hrest]
    simp only [List.mapIdx_cons, Nat.add_zero, Nat.add_succ,
      Nat.succ_add, hv, Option.getD_some, Int.ofNat_eq_coe]
    rfl

/-- C4: in default-plot mode the transform turns a record list into exactly
one `{"x": i, "y": v}` record per input record, `i` the zero-based position
and `v` the input record's value at the y-key (the last column of a known
FieldNames list, else the last key of the first record, per `transformY`);
on the claim's CSV content `"a,b\n1,10\n2,20\n3,30\n"` the parsed records
transform to `[{"x":0,"y":"10"},{"x":1,"y":"20"},{"x":2,"y":"30"}]`. -/
theorem c4_default_transform :
    (∀ (dps : List Record) (fns : Option (List String)) (y : Key),
       dps ≠ [] →
       transformY dps fns = some y →
       (∀ dp ∈ dps, (lookupKey y dp).isSome) →
       transformToDefaultData dps fns true
         = some (dps.mapIdx (fun i dp =>
             [(some "x", Val.i (Int.ofNat i)),
              (some "y", (lookupKey y dp).getD Val.nil)]),
            some ["x", "y"]))
    ∧ (csvRaw ',' "a,b\n1,10\n2,20\n3,30\n").bind
        (fun df => transformToDefaultData df.1 df.2 true)
      = some ([[(some "x", Val.i 0), (some "y", Val.s "10")],
               [(some "x", Val.i 1), (some "y", Val.s "20")],
               [(some "x", Val.i 2), (some "y", Val.s "30")]],
              some ["x", "y"]) := by
  constructor
  · intro dps fns y _ hy hlook
    unfold transformToDefaultData
    rw [if_neg (by decide), hy]
    dsimp only
    rw [transformLoop_eq y dps 0 hlook]
    simp only [Nat.zero_add]
    rfl
  · rfl

/-- Witness for C4 at a concrete input: one record with a single field
transforms to `{"x": 0, "y": value}`. -/
theorem c4_default_transform_witness :
    transformToDefaultData [[(some "a", Val.s "7")]] none true
      = some ([[(some "x", Val.i 0), (some "y", Val.s "7")]],
              some ["x", "y"]) := by
  have h := c4_default_transform.1 [[(some "a", Val.s "7")]] none
    (some "a") (by decide) (by rfl) (by decide)
  exact h.trans (by rfl)

lemma mem_recKeys_setKey (dp : Record) (k : Key) (v : Val) :
    k ∈ recKeys (setKey dp k v) := by
  unfold setKey recKeys
  by_cases h : dp.any (fun kv => kv.1 = k)
  · rw [if_pos h]
    obtain ⟨kv, hkv, hk⟩ := List.any_eq_true.1 h
    rw [decide_eq_true_eq] at hk
    refine List.mem_map.2 ⟨(k, v), List.mem_map.2 ⟨kv, hkv, by rw [if_pos hk]⟩, rfl⟩
  · rw [if_neg h, List.map_append]
    exact List.mem_append_right _ (by simp)

/-- C8: the guard asserted by `DefaultTemplate.fill` accepts a data list if
and only if every record's key set is exactly `{"x", "y", "revision"}`; and
every non-empty record list produced by the loader pipeline
(`to_datapoints`), which tags records with the field `"rev"`, is rejected
by it. -/
theorem c8_default_template_fill_guard :
    (∀ data : List Record,
       fillCheck data = true
         ↔ ∀ dp ∈ data, ∀ k : Key,
             (k ∈ recKeys dp ↔ k ∈ [some "x", some "y", some "revision"]))
    ∧ (∀ (raw : List Record) (fns : Option (List String))
         (fields : List String) (defaultPlot : Bool) (rev : String)
         (out : List Record),
       toDatapoints raw fns fields defaultPlot rev = .ok out →
       out ≠ [] → fillCheck out = false) := by
  have hiff : ∀ data : List Record,
      fillCheck data = true
        ↔ ∀ dp ∈ data, ∀ k : Key,
            (k ∈ recKeys dp ↔ k ∈ [some "x", some "y", some "revision"]) := by
    intro data
    unfold fillCheck keySetEqB
    rw [List.all_eq_true]
    constructor
    · intro h dp hdp k
      have := h dp hdp
      rw [Bool.and_eq_true, List.all_eq_true, List.all_eq_true] at this
      exact ⟨fun hk => by simpa using this.1 k hk,
             fun hk => by simpa using this.2 k hk⟩
    · intro h dp hdp
      rw [Bool.and_eq_true, List.all_eq_true, List.all_eq_true]
      exact ⟨fun k hk => by simpa using (h dp hdp k).1 hk,
             fun k hk => by simpa using (h dp hdp k).2 hk⟩
  refine ⟨hiff, ?_⟩
  intro raw fns fields dflt rev out h hne
  unfold toDatapoints at h
  cases hfl : filterFields raw fns fields with
  | error e => rw [hfl] at h; cases h
  | ok p =>
    obtain ⟨d1, f1⟩ := p
    rw [hfl] at h
    dsimp only at h
    cases htr : transformToDefaultData d1 f1 dflt with
    | none => rw [htr] at h; cases h
    | some q =>
      obtain ⟨d2, f2⟩ := q
      rw [htr] at h
      dsimp only at h
      cases h
      cases d2 with
      | nil => exact absurd rfl hne
      | cons dp0 rest =>
        by_contra hcontra
        rw [Bool.not_eq_false] at hcontra
        have hall := (hiff _).1 hcontra
        have h0 := hall (setKey dp0 (some "rev") (Val.s rev))
          (by simp [List.map_cons])
        have hmem := (h0 (some "rev")).1
          (mem_recKeys_setKey dp0 (some "rev") (Val.s rev))
        simp at hmem

/-- Witness for C8 at a concrete input: the pipeline output
`[{"x": 0, "y": "1", "rev": "workspace"}]` is rejected by the fill guard. -/
theorem c8_default_template_fill_guard_witness :
    fillCheck [[(some "x", Val.i 0), (some "y", Val.s "1"),
                (some "rev", Val.s "workspace")]] = false :=
  c8_default_template_fill_guard.2 [[(some "a", Val.s "1")]] none [] true
    "workspace"
    [[(some "x", Val.i 0), (some "y", Val.s "1"),
      (some "rev", Val.s "workspace")]]
    (by rfl) (by decide)

lemma splitOnChar_eq_single (c : Char) :
    ∀ (l : List Char), c ∉ l → splitOnChar c l = [l] := by
  intro l
  induction l with
  | nil => intro _; rfl
  | cons x xs ih =>
    intro h
    have hx : ¬ x = c := fun he => h (he ▸ List.mem_cons_self x xs)
    have hxs : c ∉ xs := fun hm => h (List.mem_cons_of_mem x hm)
    unfold splitOnChar
    rw [if_neg hx, ih hxs]

lemma dictRow_value_keys (row : List String) (hrow : row ≠ []) :
    (recKeys (dictRow ["value"] row)).head? = some (some "value")
    ∧ ∀ k ∈ recKeys (dictRow ["value"] row),
        k = some "value" ∨ k = (none : Key) := by
  cases row with
  | nil => exact absurd rfl hrow
  | cons c rest =>
    have hdrop : (["value"] : List String).drop (c :: rest).length = [] := by
      apply List.drop_eq_nil_of_le
      simp [List.length_cons]
    cases rest with
    | nil =>
      have hkeys : recKeys (dictRow ["value"] [c]) = [some "value"] := by
        unfold dictRow recKeys
        simp
      rw [hkeys]
      refine ⟨rfl, ?_⟩
      intro k hk
      rcases List.mem_cons.1 hk with h1 | h1
      · left; exact h1
      · cases h1
    | cons r rs =>
      have hkeys : recKeys (dictRow ["value"] (c :: r :: rs))
          = [some "value", none] := by
        unfold dictRow recKeys
        rw [hdrop, if_pos (by simp [List.length_cons])]
        simp [List.zip]
      rw [hkeys]
      refine ⟨rfl, ?_⟩
      intro k hk
      rcases List.mem_cons.1 hk with h1 | h1
      · left; exact h1
      · rcases List.mem_cons.1 h1 with h2 | h2
        · right; exact h2
        · cases h2

/-- C9 counterexample: for the .tsv content `"a\tb\n1\t2\n"`, whose first
line contains no comma, the parsed records do not all have the single field
name `"value"`: multi-column tab rows additionally carry the `DictReader`
rest key (`None`) holding the overflow cells. -/
theorem c9_tsv_single_column_counterexample :
    (csvSplitLines "a\tb\n1\t2\n").head? = some "a\tb".toList
    ∧ ',' ∉ "a\tb".toList
    ∧ csvRaw '\t' "a\tb\n1\t2\n"
        = some ([[(some "value", Val.s "a"), ((none : Key), Val.ls ["b"])],
                 [(some "value", Val.s "1"), ((none : Key), Val.ls ["2"])]],
                some ["value"])
    ∧ ¬ (∀ r ∈ [[(some "value", Val.s "a"), ((none : Key), Val.ls ["b"])],
                 [(some "value", Val.s "1"), ((none : Key), Val.ls ["2"])]],
           recKeys r = [some "value"]) := by
  refine ⟨by rfl, by decide, by rfl, ?_⟩
  intro hall
  have h := hall [(some "value", Val.s "a"), ((none : Key), Val.ls ["b"])]
    (List.mem_cons_self _ _)
  exact absurd h (by decide)

/-- C9 amended: for every .tsv content whose first line is non-empty and
contains no comma, the one-column check — performed with the comma
delimiter regardless of the declared tab delimiter — sees a single column,
so every non-blank row including the first is parsed as a data record with
declared fieldnames `["value"]`: the row's first tab-separated cell is
stored under `"value"` and any remaining tab-separated cells are collected
under the `DictReader` rest key, so every record key is `"value"` or the
rest key, with `"value"` first. -/
theorem c9_tsv_comma_delimiter_check (content : String) (l : List Char)
    (hhead : (csvSplitLines content).head? = some l)
    (hne : l ≠ []) (hnc : ',' ∉ l) :
    csvRaw '\t' content
      = some (((csvReaderRows '\t' false content).filter
          (fun r => r ≠ [])).map (dictRow ["value"]), some ["value"])
    ∧ ∀ r ∈ ((csvReaderRows '\t' false content).filter
          (fun r => r ≠ [])).map (dictRow ["value"]),
        (recKeys r).head? = some (some "value")
        ∧ ∀ k ∈ recKeys r, k = some "value" ∨ k = (none : Key) := by
  have hfirst : (csvReaderRows ',' false content).head?
      = some [String.mk l] := by
    unfold csvReaderRows
    rw [List.head?_map, hhead]
    show some (csvParseLine ',' false l) = some [String.mk l]
    congr 1
    unfold csvParseLine
    rw [if_neg hne]
    dsimp only
    rw [splitOnChar_eq_single ',' l hnc]
    rfl
  constructor
  · unfold csvRaw
    rw [hfirst]
    dsimp only
    rw [if_pos (by rfl)]
    rfl
  · intro r hr
    obtain ⟨row, hrow, rfl⟩ := List.mem_map.1 hr
    have hrne : row ≠ [] := by
      have := List.mem_filter.1 hrow
      simpa using this.2
    exact dictRow_value_keys row hrne

/-- Witness for C9 at a concrete input: the amended statement applied to
`"a\tb\n1\t2\n"`. -/
theorem c9_tsv_comma_delimiter_check_witness :
    csvRaw '\t' "a\tb\n1\t2\n"
      = some (((csvReaderRows '\t' false "a\tb\n1\t2\n").filter
          (fun r => r ≠ [])).map (dictRow ["value"]), some ["value"]) :=
  (c9_tsv_comma_delimiter_check "a\tb\n1\t2\n" "a\tb".toList (by rfl)
    (by decide) (by decide)).1
